import Mathlib
set_option maxRecDepth 16384

/-!
Verification development for the adaptive chunking and multi-stage retrieval
pipeline of the `agentic-ai-tutor` repository.

Modelling conventions, used throughout:
* Python strings are modelled as `List Char` (ASCII inputs; `str.strip`,
  `\s` and friends are modelled on the ASCII whitespace characters).
* Python `float` similarity scores are modelled as `Int`: none of the
  properties considered here depends on fractional values, only on the
  order structure used by sorting.
* Python's built-in `hash` of a content prefix is modelled by the prefix
  itself (an injective fingerprint); hash collisions are abstracted away.
* `list.sort(reverse=True)` (a stable sort) is modelled by a stable
  descending insertion sort (`sortDescBy`).
* External capabilities (the Chroma store, the OpenAI judge, the langchain
  text splitters) are modelled as explicit function/`Except` parameters:
  an `Except.error` value models the Python exception paths that the code
  catches.
-/

/-- Python's whitespace class (`\s` in `re`, `str.strip()`), ASCII range. -/
def isPySpace (c : Char) : Bool :=
  c = ' ' || c = '\t' || c = '\n' || c = '\x0b' || c = '\x0c' || c = '\r'

/-- Python `str.strip()`: remove leading and trailing whitespace. -/
def pyStrip (l : List Char) : List Char :=
  ((l.dropWhile isPySpace).reverse.dropWhile isPySpace).reverse

/-- Erase every whitespace character; two texts agree "up to whitespace"
when `dropWS` maps them to the same list. -/
def dropWS (l : List Char) : List Char :=
  l.filter (fun c => !isPySpace c)

/-- Python `sep.join(pieces)`. -/
def joinSep (sep : List Char) : List (List Char) → List Char
  | [] => []
  | [x] => x
  | x :: y :: rest => x ++ sep ++ joinSep sep (y :: rest)

/-- Python slice `text[a:b]` (with the usual clamping of `b`). -/
def pySlice (text : List Char) (a b : Nat) : List Char :=
  (text.take b).drop a

/-! ## `src/vector_store/vector_store.py` — `VectorStoreManager`

The Chroma store is an external capability.  A call
`self.vector_store.similarity_search_with_score(query, k)` is modelled as
`store query k : Except String (List (StoreDoc × Int))`, where an
`Except.error` models the exception path caught by the `except` clauses. -/

/-- A langchain `Document` as returned by the underlying store. -/
structure StoreDoc where
  page_content : List Char
  metadata : List (String × String)
deriving DecidableEq

/-- A formatted search result (the dict built in `VectorStoreManager.search`). -/
structure SearchResult where
  content : List Char
  metadata : List (String × String)
  score : Int
  distance : Int
  rank : Nat
deriving DecidableEq

/-- The result-formatting loop of `VectorStoreManager.search`:
`{"content": .., "metadata": .., "score": s, "distance": 1 - s, "rank": i+1}`. -/
def formatResults (results : List (StoreDoc × Int)) : List SearchResult :=
  results.enum.map (fun p =>
    ⟨p.2.1.page_content, p.2.1.metadata, p.2.2, 1 - p.2.2, p.1 + 1⟩)

/-- `VectorStoreManager.search`: on any store failure return `[]`. -/
def VectorStoreManager.search
    (store : String → Nat → Except String (List (StoreDoc × Int)))
    (query : String) (n_results : Nat) : List SearchResult :=
  match store query n_results with
  | .error _ => []
  | .ok results => formatResults results

/-- The stats report built by `VectorStoreManager.get_collection_stats`.
`none` fields model keys absent from the returned dict. -/
structure CollectionStats where
  total_documents : Nat
  collection_name : String
  embedding_model : Option String
  note : Option String
  error : Option String
deriving DecidableEq

/-- `VectorStoreManager.get_collection_stats`.  The first argument models
`self.vector_store._collection.count()`: `none` when the `_collection`
attribute is missing (`hasattr` false), `some (.error e)` when reading the
count raises, `some (.ok n)` on success. -/
def get_collection_stats (collection_count : Option (Except String Nat))
    (collection_name embedding_model : String) : CollectionStats :=
  match collection_count with
  | some (.ok n) => ⟨n, collection_name, some embedding_model, none, none⟩
  | none => ⟨0, collection_name, some embedding_model,
      some "Collection not accessible", none⟩
  | some (.error e) => ⟨0, collection_name, none, none, some e⟩

/-! ## `src/agents/retrieval_agent.py` — `RetrievalAgent` -/

/-- `hash(result["content"][:100])`, modelled by the 100-character prefix
itself (the spec's "content fingerprint"). -/
def fingerprint (r : SearchResult) : List Char := r.content.take 100

/-- The dedup loop of `retrieve_relevant_docs`: `seen` is the
`seen_contents` set, kept as the list of fingerprints seen so far. -/
def dedupGo (seen : List (List Char)) : List SearchResult → List SearchResult
  | [] => []
  | r :: rest =>
    if fingerprint r ∈ seen then dedupGo seen rest
    else r :: dedupGo (fingerprint r :: seen) rest

/-- One insertion step of a stable descending insertion sort by an integer
key.  On equal keys the inserted (originally earlier) element stays first,
matching the stability guarantee of Python's `list.sort(reverse=True)`. -/
def insertDescBy {α : Type} (key : α → Int) (x : α) : List α → List α
  | [] => [x]
  | y :: ys => if key y ≤ key x then x :: y :: ys else y :: insertDescBy key x ys

/-- Stable descending sort by an integer key; models Python's stable
`list.sort(key=.., reverse=True)`. -/
def sortDescBy {α : Type} (key : α → Int) : List α → List α
  | [] => []
  | x :: xs => insertDescBy key x (sortDescBy key xs)

/-- `unique_results.sort(key=lambda x: x["score"], reverse=True)`. -/
def sortByScoreDesc (l : List SearchResult) : List SearchResult :=
  sortDescBy (fun r => r.score) l

/-- `RetrievalAgent.retrieve_relevant_docs`: fan out the queries, dedup by
content fingerprint, sort by score descending, truncate to `n_results`. -/
def retrieve_relevant_docs (search : String → Nat → List SearchResult)
    (queries : List String) (n_results : Nat) : List SearchResult :=
  let all_results := queries.flatMap (fun q => search q n_results)
  let unique_results := dedupGo [] all_results
  (sortByScoreDesc unique_results).take n_results

/-- A document dict as seen by `rerank_documents` (`relevance_score` is the
key added inside the function; absent on input). -/
structure RankedDoc where
  content : List Char
  score : Int
  relevance_score : Option Int
deriving DecidableEq

/-- The score-assignment loop of `rerank_documents`: position `i` gets
`scores[i]` when present and the document's own similarity score
(`doc.get("score", 0)`) otherwise. -/
def assignScores (scores : List Int) (documents : List RankedDoc) : List RankedDoc :=
  documents.enum.map (fun p => ⟨p.2.content, p.2.score, some (scores.getD p.1 p.2.score)⟩)

/-- Sort key `x["relevance_score"]` (always assigned on the success path). -/
def relKey (d : RankedDoc) : Int := d.relevance_score.getD d.score

/-- `RetrievalAgent.rerank_documents`.  `judge = none` models any exception
from the external judging capability (API call failure or `json.loads` on a
malformed response); `judge = some scores` models a parsed response whose
`"scores"` entry is `scores` (defaulting to `[]` when the key is absent). -/
def rerank_documents (judge : Option (List Int)) (documents : List RankedDoc) :
    List RankedDoc :=
  if documents.isEmpty then []
  else
    match judge with
    | none => documents
    | some scores => sortDescBy relKey (assignScores scores documents)

/-- A concrete two-query search capability used to witness C1: the content
"beta" is returned by both queries with different scores. -/
def searchA : String → Nat → List SearchResult := fun q _ =>
  if q = "q1" then
    [⟨"alpha".data, [], 3, -2, 1⟩, ⟨"beta".data, [], 2, -1, 2⟩]
  else
    [⟨"beta".data, [], 9, -8, 1⟩, ⟨"gamma".data, [], 7, -6, 2⟩]

/-- The `.get default` placeholder used to state concrete facts about list
positions. -/
def defaultSR : SearchResult := ⟨[], [], 0, 0, 0⟩

/-- A concrete two-query search capability used for C10: the second query's
result has a higher score than the first query's. -/
def searchB : String → Nat → List SearchResult := fun q _ =>
  if q = "q1" then [⟨"low".data, [], 1, 0, 1⟩] else [⟨"high".data, [], 5, -4, 1⟩]

/-! ## `src/data_processor/hybrid_chunker.py` — `HybridChunker`

Configuration: the chunker reads `config.chunk_size` and
`config.chunk_overlap`; the remaining `ChunkConfig` fields
(`min_chunk_size`, `max_chunk_size`, `separators`, `keep_separator`) are
consumed only by the external langchain `RecursiveCharacterTextSplitter`
and are therefore not modelled.  The two external splitters
(`RecursiveCharacterTextSplitter.split_text`,
`MarkdownHeaderTextSplitter.split_text`) are passed in as function
parameters `split` and `mdSplit`. -/

structure ChunkConfig where
  chunk_size : Nat
  chunk_overlap : Nat
deriving DecidableEq

/-- Index of the last `'\n'` in a list, if any. -/
def lastNl : List Char → Option Nat
  | [] => none
  | c :: rest =>
    match lastNl rest with
    | some j => some (j + 1)
    | none => if c = '\n' then some 0 else none

/-- The scanning loop of `re.split(r'\n\s*\n', text)`.  `cur` holds the
current piece, reversed.  At a `'\n'` whose following maximal whitespace
run contains another `'\n'`, the greedy backtracked match `\n\s*\n`
consumes this newline and the run up to (and including) the run's last
newline, ending the current piece.  The structural `fuel` argument (one
unit per consumed character; callers pass the text length) only makes the
recursion structural, so that the definition evaluates by kernel
reduction; it is never exhausted when `fuel ≥ length`. -/
def splitParasGo : Nat → List Char → List Char → List (List Char)
  | 0, cur, _ => [cur.reverse]
  | _ + 1, cur, [] => [cur.reverse]
  | fuel + 1, cur, c :: rest =>
    if c = '\n' then
      match lastNl (rest.takeWhile isPySpace) with
      | some j => cur.reverse :: splitParasGo fuel [] (rest.drop (j + 1))
      | none => splitParasGo fuel (c :: cur) rest
    else splitParasGo fuel (c :: cur) rest

/-- `re.split(r'\n\s*\n', text)` — the paragraph split used by
`auto_select_strategy`, `_semantic_chunk` and `_paragraph_chunk`. -/
def splitParas (text : List Char) : List (List Char) :=
  splitParasGo text.length [] text

/-- Sentence terminators `[.!?]`. -/
def isTerm (c : Char) : Bool := c = '.' || c = '!' || c = '?'

/-- The scanning loop of `re.split(r'(?<=[.!?])\s+', text)`.  A maximal
whitespace run directly preceded by a sentence terminator is a separator;
the terminator stays attached to the piece before it.  `fuel` as in
`splitParasGo`. -/
def splitSentencesGo : Nat → List Char → Bool → List Char → List (List Char)
  | 0, cur, _, _ => [cur.reverse]
  | _ + 1, cur, _, [] => [cur.reverse]
  | fuel + 1, cur, prevTerm, c :: rest =>
    if prevTerm && isPySpace c then
      cur.reverse :: splitSentencesGo fuel [] false (rest.dropWhile isPySpace)
    else splitSentencesGo fuel (c :: cur) (isTerm c) rest

/-- `re.split(r'(?<=[.!?])\s+', text)` — the split of `_sentence_chunk`. -/
def splitSentences (text : List Char) : List (List Char) :=
  splitSentencesGo text.length [] false text

/-- Number of matches of `[.!?]+\s` (so that
`len(re.split(r'[.!?]+\s', text))` is this plus one).  A match needs a
maximal terminator run followed immediately by one whitespace character;
no match can start inside a failed run, so scanning resumes after it.
`fuel` as in `splitParasGo`. -/
def sentenceSepCountGo : Nat → List Char → Nat
  | 0, _ => 0
  | _ + 1, [] => 0
  | fuel + 1, c :: rest =>
    if isTerm c then
      match rest.dropWhile isTerm with
      | [] => 0
      | a :: rest2 =>
        if isPySpace a then 1 + sentenceSepCountGo fuel rest2
        else sentenceSepCountGo fuel (a :: rest2)
    else sentenceSepCountGo fuel rest

/-- Number of matches of `re.split(r'[.!?]+\s', ..)`'s separator pattern. -/
def sentenceSepCount (l : List Char) : Nat :=
  sentenceSepCountGo l.length l

/-- The backquote character (U+0060). -/
def backquote : Char := Char.ofNat 96

/-- Does the list start with three backquotes? -/
def startsWithFence (l : List Char) : Bool :=
  match l with
  | a :: b :: c :: _ => a = backquote && b = backquote && c = backquote
  | _ => false

/-- Python `'```' in text`. -/
def hasCodeFence : List Char → Bool
  | [] => false
  | c :: rest => startsWithFence (c :: rest) || hasCodeFence rest

/-- The pattern `'\n    '` (newline plus four spaces). -/
def nlIndent : List Char := ['\n', ' ', ' ', ' ', ' ']

/-- Python `text.count('\n    ')` (non-overlapping, left to right).
`fuel` as in `splitParasGo`. -/
def countNlIndentGo : Nat → List Char → Nat
  | 0, _ => 0
  | _ + 1, [] => 0
  | fuel + 1, c :: rest =>
    if (c :: rest).take 5 = nlIndent then 1 + countNlIndentGo fuel ((c :: rest).drop 5)
    else countNlIndentGo fuel rest

/-- Python `text.count('\n    ')`. -/
def countNlIndent (l : List Char) : Nat :=
  countNlIndentGo l.length l

/-- Does the regex `^#{1,6}\s` match at this position (assumed to be a line
start)?  Backtracking on `#{1,6}` cannot help, so the match succeeds
exactly when the maximal run of `'#'` has length 1..6 and is followed by a
whitespace character. -/
def mdHeaderHere (l : List Char) : Bool :=
  let hs := l.takeWhile (fun c => c = '#')
  decide (1 ≤ hs.length) && decide (hs.length ≤ 6) &&
    (match l.drop hs.length with
     | c :: _ => isPySpace c
     | [] => false)

/-- Scan of `re.search(r'^#{1,6}\s', text, re.MULTILINE)`: try the header
pattern at every line start. -/
def hasMdHeaderGo : Bool → List Char → Bool
  | _, [] => false
  | atStart, c :: rest =>
    (atStart && mdHeaderHere (c :: rest)) || hasMdHeaderGo (c = '\n') rest

/-- `re.search(r'^#{1,6}\s', text, re.MULTILINE)` as a Bool. -/
def hasMdHeader (text : List Char) : Bool := hasMdHeaderGo true text

/-- `HybridChunker.auto_select_strategy`. -/
def auto_select_strategy (text : List Char) : String :=
  if hasMdHeader text then "markdown"
  else if hasCodeFence text || decide (countNlIndent text > 5) then "recursive"
  else if (splitParas text).length > 3 then "paragraph"
  else if sentenceSepCount text + 1 > 10 ∧ text.length < 5000 then "sentence"
  else if text.length > 10000 then "sliding_window"
  else "semantic"

/-- The chunk-internal separator `'\n\n'` used by `'\n\n'.join(..)`. -/
def nl2 : List Char := ['\n', '\n']

/-- `HybridChunker._recursive_chunk`: delegates to the external
`RecursiveCharacterTextSplitter.split_text` (the `split` parameter) and
returns its output unchanged — note: no non-empty guard on this path. -/
def _recursive_chunk (split : List Char → List (List Char)) (text : List Char) :
    List (List Char) :=
  split text

/-- The paragraph-accumulation loop of `HybridChunker._semantic_chunk`:
state is `(current_chunk, current_size)`; empty (stripped) paragraphs are
skipped; a paragraph longer than `chunk_size` flushes the current chunk
and is split by the external recursive splitter; otherwise paragraphs are
greedily accumulated (`current_size += len + 2`). -/
def semanticGo (cfg : ChunkConfig) (split : List Char → List (List Char)) :
    List (List Char) → List (List Char) → Nat → List (List Char)
  | [], cur, _ => if cur = [] then [] else [joinSep nl2 cur]
  | para :: rest, cur, size =>
    let p := pyStrip para
    if p = [] then semanticGo cfg split rest cur size
    else if p.length > cfg.chunk_size then
      (if cur = [] then [] else [joinSep nl2 cur]) ++ split p
        ++ semanticGo cfg split rest [] 0
    else if size + p.length > cfg.chunk_size ∧ cur ≠ [] then
      joinSep nl2 cur :: semanticGo cfg split rest [p] p.length
    else semanticGo cfg split rest (cur ++ [p]) (size + p.length + 2)

/-- `HybridChunker._semantic_chunk` (`chunks if chunks else [text]`). -/
def _semantic_chunk (cfg : ChunkConfig) (split : List Char → List (List Char))
    (text : List Char) : List (List Char) :=
  if semanticGo cfg split (splitParas text) [] 0 = [] then [text]
  else semanticGo cfg split (splitParas text) [] 0

/-- The accumulation loop of `HybridChunker._paragraph_chunk` (same as
`semanticGo` but without the oversized-paragraph branch). -/
def paragraphGo (cfg : ChunkConfig) :
    List (List Char) → List (List Char) → Nat → List (List Char)
  | [], cur, _ => if cur = [] then [] else [joinSep nl2 cur]
  | para :: rest, cur, size =>
    let p := pyStrip para
    if p = [] then paragraphGo cfg rest cur size
    else if size + p.length > cfg.chunk_size ∧ cur ≠ [] then
      joinSep nl2 cur :: paragraphGo cfg rest [p] p.length
    else paragraphGo cfg rest (cur ++ [p]) (size + p.length + 2)

/-- `HybridChunker._paragraph_chunk` (`chunks if chunks else [text]`). -/
def _paragraph_chunk (cfg : ChunkConfig) (text : List Char) : List (List Char) :=
  if paragraphGo cfg (splitParas text) [] 0 = [] then [text]
  else paragraphGo cfg (splitParas text) [] 0

/-- The accumulation loop of `HybridChunker._sentence_chunk` (chunk pieces
joined by `' '`, `current_size += len + 1`). -/
def sentenceGo (cfg : ChunkConfig) :
    List (List Char) → List (List Char) → Nat → List (List Char)
  | [], cur, _ => if cur = [] then [] else [joinSep [' '] cur]
  | s :: rest, cur, size =>
    let p := pyStrip s
    if p = [] then sentenceGo cfg rest cur size
    else if size + p.length > cfg.chunk_size ∧ cur ≠ [] then
      joinSep [' '] cur :: sentenceGo cfg rest [p] p.length
    else sentenceGo cfg rest (cur ++ [p]) (size + p.length + 1)

/-- `HybridChunker._sentence_chunk` (`chunks if chunks else [text]`). -/
def _sentence_chunk (cfg : ChunkConfig) (text : List Char) : List (List Char) :=
  if sentenceGo cfg (splitSentences text) [] 0 = [] then [text]
  else sentenceGo cfg (splitSentences text) [] 0

/-- `HybridChunker._markdown_chunk`: the external
`MarkdownHeaderTextSplitter` (parameter `mdSplit`) yields sections; any
section longer than `chunk_size` is further split by the external
recursive splitter. -/
def _markdown_chunk (cfg : ChunkConfig) (split mdSplit : List Char → List (List Char))
    (text : List Char) : List (List Char) :=
  if (mdSplit text).flatMap
      (fun t => if t.length > cfg.chunk_size then split t else [t]) = [] then [text]
  else (mdSplit text).flatMap
    (fun t => if t.length > cfg.chunk_size then split t else [t])

/-- Python `text.rfind(' ', lo, hi)`: highest index in `[lo, hi)` holding a
space, as an `Option` (`none` models the return value `-1`). -/
def rfindSpace (text : List Char) (lo hi : Nat) : Option Nat :=
  ((List.range' lo (hi - lo)).filter (fun i => text.getD i 'x' = ' ')).getLast?

/-- The window-end computation of `HybridChunker._sliding_window_chunk`:
`end = start + chunk_size`, backed off to the last space in the trailing
`int(chunk_size * 0.1)` characters when that space lies strictly past
`start`.  `int(chunk_size * 0.1)` is modelled as `chunk_size / 10`; the
two agree for the sizes considered here (and in particular for 100 and
1000, where the IEEE-754 product rounds to the exact integer). -/
def windowEnd (cfg : ChunkConfig) (text : List Char) (start : Nat) : Nat :=
  if start + cfg.chunk_size < text.length then
    match rfindSpace text (start + cfg.chunk_size - cfg.chunk_size / 10)
        (start + cfg.chunk_size) with
    | some bp => if bp > start then bp else start + cfg.chunk_size
    | none => start + cfg.chunk_size
  else start + cfg.chunk_size

/-- The next value of `start` (`start = end - self.config.chunk_overlap`,
computed in `Int` as in Python). -/
def slidingNext (cfg : ChunkConfig) (text : List Char) (start : Nat) : Int :=
  (windowEnd cfg text start : Int) - (cfg.chunk_overlap : Int)

/-- One iteration's emission: `chunk = text[start:end].strip()`, appended
only when non-empty. -/
def slidingEmit (cfg : ChunkConfig) (text : List Char) (start : Nat) :
    List (List Char) :=
  if pyStrip (pySlice text start (windowEnd cfg text start)) = [] then []
  else [pyStrip (pySlice text start (windowEnd cfg text start))]

/-- The `while start < text_len` loop of
`HybridChunker._sliding_window_chunk`.  The loop in the source has no
fuel; `fuel` bounds the number of iterations modelled, and the loop body
is otherwise translated literally (emit the stripped slice when non-empty,
advance `start = end - overlap`, break when the next start is `≤ 0`).
C8 shows the source loop need not terminate, so no fuel-free function
exists. -/
def slidingGo (cfg : ChunkConfig) (text : List Char) : Nat → Nat → List (List Char)
  | 0, _ => []
  | fuel + 1, start =>
    if start < text.length then
      if slidingNext cfg text start ≤ 0 then slidingEmit cfg text start
      else slidingEmit cfg text start
        ++ slidingGo cfg text fuel (slidingNext cfg text start).toNat
    else []

/-- `HybridChunker._sliding_window_chunk` (up to `fuel` loop iterations;
`chunks if chunks else [text]`). -/
def _sliding_window_chunk (cfg : ChunkConfig) (fuel : Nat) (text : List Char) :
    List (List Char) :=
  if slidingGo cfg text fuel 0 = [] then [text]
  else slidingGo cfg text fuel 0

/-- The keys of `HybridChunker.strategies`. -/
def strategyNames : List String :=
  ["recursive", "semantic", "markdown", "paragraph", "sentence", "sliding_window"]

/-- Dispatch on a known strategy name (`self.strategies[strategy](text)`). -/
def dispatchStrategy (cfg : ChunkConfig) (split mdSplit : List Char → List (List Char))
    (fuel : Nat) (text : List Char) (s : String) : List (List Char) :=
  if s = "recursive" then _recursive_chunk split text
  else if s = "semantic" then _semantic_chunk cfg split text
  else if s = "markdown" then _markdown_chunk cfg split mdSplit text
  else if s = "paragraph" then _paragraph_chunk cfg text
  else if s = "sentence" then _sentence_chunk cfg text
  else _sliding_window_chunk cfg fuel text

/-- Resolution of the `'auto'` pseudo-strategy. -/
def resolveStrategy (text : List Char) (strategy : String) : String :=
  if strategy = "auto" then auto_select_strategy text else strategy

/-- `HybridChunker.chunk`: resolve `'auto'` via `auto_select_strategy`,
fall back to `'recursive'` for unknown names, then dispatch. -/
def chunk (cfg : ChunkConfig) (split mdSplit : List Char → List (List Char))
    (fuel : Nat) (text : List Char) (strategy : String) : List (List Char) :=
  dispatchStrategy cfg split mdSplit fuel text
    (if resolveStrategy text strategy ∈ strategyNames then resolveStrategy text strategy
     else "recursive")

/-! ## C4: strategy selection on the three concrete spec inputs -/

/-- A 300-character text of 15 sentences (fourteen of 19 characters and one
of 20, separated by single spaces). -/
def sentText : List Char :=
  joinSep [' '] (List.replicate 14 (List.replicate 18 'a' ++ ['.'])
    ++ [List.replicate 19 'a' ++ ['.']])

/-! ## C8: the sliding-window loop need not terminate -/

/-- A configuration allowed by the claim: overlap 95 is non-negative and
smaller than the target chunk size 100. -/
def badCfg : ChunkConfig := ⟨100, 95⟩

/-- 120 characters: all `'a'` except a single space at index 105. -/
def badText : List Char :=
  List.replicate 105 'a' ++ ' ' :: List.replicate 14 'a'

/-! ## `src/data_processor/processing.py` — `DocumentProcessor.generate_chunk_id`

`hashlib.sha256(f"{doc_id}:{text}".encode()).hexdigest()[:16]`.  SHA-256
(FIPS 180-4) is implemented below over `Nat` with explicit mod-2^32
truncation, structurally recursive so that it evaluates by kernel
reduction; `.encode()` is UTF-8. -/

/-- Truncation to a 32-bit word. -/
def w32 (n : Nat) : Nat := n % 4294967296

/-- Right rotation of a 32-bit word by `n`. -/
def rotr32 (n x : Nat) : Nat := w32 ((x >>> n) ||| (x <<< (32 - n)))

def sha_ch (x y z : Nat) : Nat := (x &&& y) ^^^ ((4294967295 - x) &&& z)

def sha_maj (x y z : Nat) : Nat := (x &&& y) ^^^ (x &&& z) ^^^ (y &&& z)

def bigSigma0 (x : Nat) : Nat := rotr32 2 x ^^^ rotr32 13 x ^^^ rotr32 22 x

def bigSigma1 (x : Nat) : Nat := rotr32 6 x ^^^ rotr32 11 x ^^^ rotr32 25 x

def smallSigma0 (x : Nat) : Nat := rotr32 7 x ^^^ rotr32 18 x ^^^ (x >>> 3)

def smallSigma1 (x : Nat) : Nat := rotr32 17 x ^^^ rotr32 19 x ^^^ (x >>> 10)

/-- The 64 SHA-256 round constants. -/
def sha256K : List Nat :=
  [1116352408, 1899447441, 3049323471, 3921009573,
   961987163, 1508970993, 2453635748, 2870763221,
   3624381080, 310598401, 607225278, 1426881987,
   1925078388, 2162078206, 2614888103, 3248222580,
   3835390401, 4022224774, 264347078, 604807628,
   770255983, 1249150122, 1555081692, 1996064986,
   2554220882, 2821834349, 2952996808, 3210313671,
   3336571891, 3584528711, 113926993, 338241895,
   666307205, 773529912, 1294757372, 1396182291,
   1695183700, 1986661051, 2177026350, 2456956037,
   2730485921, 2820302411, 3259730800, 3345764771,
   3516065817, 3600352804, 4094571909, 275423344,
   430227734, 506948616, 659060556, 883997877,
   958139571, 1322822218, 1537002063, 1747873779,
   1955562222, 2024104815, 2227730452, 2361852424,
   2428436474, 2756734187, 3204031479, 3329325298]

/-- The SHA-256 initial hash value. -/
def sha256H0 : List Nat :=
  [1779033703, 3144134277, 1013904242, 2773480762,
   1359893119, 2600822924, 528734635, 1541459225]

/-- `k`-byte big-endian encoding of `n`. -/
def beBytes : Nat → Nat → List Nat
  | 0, _ => []
  | k + 1, n => beBytes k (n / 256) ++ [n % 256]

/-- SHA-256 padding: `0x80`, zeros to 56 mod 64, 8-byte bit length. -/
def sha256pad (msg : List Nat) : List Nat :=
  msg ++ 128 :: List.replicate ((119 - msg.length % 64) % 64) 0
    ++ beBytes 8 (8 * msg.length)

/-- Split into 64-byte blocks (`fuel` for structural recursion as in
`splitParasGo`; each step consumes 64 bytes, so `fuel = length` is ample). -/
def toBlocksGo : Nat → List Nat → List (List Nat)
  | 0, _ => []
  | fuel + 1, l => if l = [] then [] else l.take 64 :: toBlocksGo fuel (l.drop 64)

def toBlocks (l : List Nat) : List (List Nat) := toBlocksGo l.length l

/-- Big-endian word from bytes. -/
def beWord (bytes : List Nat) : Nat := bytes.foldl (fun acc b => acc * 256 + b) 0

/-- The 16 initial schedule words of a 64-byte block. -/
def blockWords (block : List Nat) : List Nat :=
  (List.range 16).map (fun i => beWord ((block.drop (4 * i)).take 4))

/-- Extend the message schedule by `k` further words. -/
def msgScheduleGo : Nat → List Nat → List Nat
  | 0, w => w
  | k + 1, w =>
    msgScheduleGo k (w ++ [w32 (smallSigma1 (w.getD (w.length - 2) 0)
      + w.getD (w.length - 7) 0 + smallSigma0 (w.getD (w.length - 15) 0)
      + w.getD (w.length - 16) 0)])

/-- The full 64-word message schedule. -/
def msgSchedule (w16 : List Nat) : List Nat := msgScheduleGo 48 w16

/-- One compression round on the state `[a,b,c,d,e,f,g,h]` with `(K_t, W_t)`. -/
def sha256round (st : List Nat) (kw : Nat × Nat) : List Nat :=
  match st with
  | [a, b, c, d, e, f, g, h] =>
    [w32 (w32 (h + bigSigma1 e + sha_ch e f g + kw.1 + kw.2)
        + w32 (bigSigma0 a + sha_maj a b c)),
     a, b, c,
     w32 (d + w32 (h + bigSigma1 e + sha_ch e f g + kw.1 + kw.2)),
     e, f, g]
  | _ => st

/-- Process one block: 64 rounds then add the state back into `H`. -/
def sha256block (H : List Nat) (block : List Nat) : List Nat :=
  (H.zip ((sha256K.zip (msgSchedule (blockWords block))).foldl sha256round H)).map
    (fun p => w32 (p.1 + p.2))

/-- Lower-case hex digit. -/
def hexDigit (n : Nat) : Char :=
  if n < 10 then Char.ofNat (48 + n) else Char.ofNat (87 + n)

/-- Eight hex digits of a 32-bit word, most significant first. -/
def hex8 (n : Nat) : List Char :=
  (List.range 8).map (fun i => hexDigit ((n >>> (28 - 4 * i)) % 16))

/-- UTF-8 encoding of one character (Python `str.encode()`). -/
def utf8Bytes (c : Char) : List Nat :=
  let n := c.toNat
  if n < 128 then [n]
  else if n < 2048 then [192 + n / 64, 128 + n % 64]
  else if n < 65536 then [224 + n / 4096, 128 + (n / 64) % 64, 128 + n % 64]
  else [240 + n / 262144, 128 + (n / 4096) % 64, 128 + (n / 64) % 64, 128 + n % 64]

def strBytes (l : List Char) : List Nat := l.flatMap utf8Bytes

/-- `hashlib.sha256(s.encode()).hexdigest()`. -/
def sha256hexdigest (s : List Char) : List Char :=
  ((toBlocks (sha256pad (strBytes s))).foldl sha256block sha256H0).flatMap hex8

/-- `DocumentProcessor.generate_chunk_id`: the first 16 hex characters of
the SHA-256 digest of `f"{doc_id}:{text}"`. -/
def generate_chunk_id (doc_id text : List Char) : List Char :=
  (sha256hexdigest (doc_id ++ ':' :: text)).take 16

/-- The spec's formula, stated in the spec's own terms: the first 16 hex
characters of SHA-256 of the string `"<doc_id>:<content>"`. -/
def chunk_id_spec (doc_id content : List Char) : List Char :=
  (sha256hexdigest (doc_id ++ [':'] ++ content)).take 16

/-! ## `src/mcp/server/mcp_server.py` — `ingest_documents`

The tool calls `DataIngestor.ingest_directory` (which yields one raw
document per readable PDF/TXT file and one per JSON record) and then
`VectorStoreManager.add_documents`, which re-splits every raw document
into chunk documents with the langchain text splitter before upserting.
The file system, the loaders and the splitter are external capabilities,
passed in as parameters (`Except.error` models a raised exception). -/

/-- A raw document dict `{"content": .., "source": ..}` from `DataIngestor`. -/
structure RawDoc where
  content : List Char
  source : String
deriving DecidableEq

/-- The dict returned by the `ingest_documents` tool (`none` = absent key). -/
structure IngestResult where
  success : Bool
  documents_ingested : Option Nat
  message : Option String
  error : Option String
deriving DecidableEq

/-- The chunk documents `add_documents` builds: each raw document is split
by the external text splitter and `all_chunks` is the concatenation
(ids and metadata omitted; only the chunks themselves matter here). -/
def add_documents_chunks (splitter : RawDoc → List (List Char))
    (documents : List RawDoc) : List (List Char) :=
  documents.flatMap splitter

/-- `mcp_server.ingest_documents`: directory-existence check, ingest,
empty check, add, then a success dict whose count is the number of raw
documents returned by the ingestor. -/
def ingest_documents (dirExists : Bool)
    (ingest_result : Except String (List RawDoc))
    (add_result : List RawDoc → Except String Unit)
    (directory_path : String) : IngestResult :=
  if dirExists = false then
    ⟨false, none, none, some ("Directory not found: " ++ directory_path)⟩
  else
    match ingest_result with
    | .error e => ⟨false, none, none, some e⟩
    | .ok documents =>
      if documents.isEmpty then
        ⟨false, none, none, some "No documents found or could be read"⟩
      else
        match add_result documents with
        | .error e => ⟨false, none, none, some e⟩
        | .ok _ =>
          ⟨true, some documents.length,
           some ("Successfully ingested " ++ toString documents.length
             ++ " documents"), none⟩

/-- A raw text document of 10 characters. -/
def rawDoc1 : RawDoc := ⟨"0123456789".data, "f.txt"⟩

/-- A stand-in for the langchain text splitter producing two overlapping
chunks for this document (as `RecursiveCharacterTextSplitter` does for
any content longer than the configured chunk size). -/
def twoChunkSplitter : RawDoc → List (List Char) := fun d =>
  [d.content.take 6, d.content.drop 4]

theorem dropWS_append (a b : List Char) : dropWS (a ++ b) = dropWS a ++ dropWS b :=
  List.filter_append _ _

theorem dropWS_dropWhile (l : List Char) :
    dropWS (l.dropWhile isPySpace) = dropWS l := by
  induction l with
  | nil => rfl
  | cons c rest ih =>
    by_cases h : isPySpace c
    · have h1 : List.dropWhile isPySpace (c :: rest) = List.dropWhile isPySpace rest := by
        simp [List.dropWhile_cons, h]
      have h2 : dropWS (c :: rest) = dropWS rest := by
        simp [dropWS, List.filter_cons, h]
      rw [h1, h2, ih]
    · have h1 : List.dropWhile isPySpace (c :: rest) = c :: rest := by
        simp [List.dropWhile_cons, h]
      rw [h1]

theorem dropWS_reverse (l : List Char) : dropWS l.reverse = (dropWS l).reverse :=
  List.filter_reverse _ _

theorem dropWS_pyStrip (l : List Char) : dropWS (pyStrip l) = dropWS l := by
  unfold pyStrip
  rw [dropWS_reverse, dropWS_dropWhile, dropWS_reverse, dropWS_dropWhile,
    List.reverse_reverse]

theorem dropWS_eq_nil (l : List Char) (h : ∀ c ∈ l, isPySpace c)
    : dropWS l = [] := by
  simp only [dropWS, List.filter_eq_nil_iff]
  intro a ha
  simp [h a ha]

theorem dropWS_of_pyStrip_eq_nil (l : List Char) (h : pyStrip l = []) :
    dropWS l = [] := by
  rw [← dropWS_pyStrip, h]
  rfl

theorem dropWS_joinSep (sep : List Char) (hsep : ∀ c ∈ sep, isPySpace c)
    (l : List (List Char)) : dropWS (joinSep sep l) = dropWS l.flatten := by
  match l with
  | [] => rfl
  | [x] => simp [joinSep]
  | x :: y :: rest =>
    have ih := dropWS_joinSep sep hsep (y :: rest)
    simp only [joinSep, List.flatten_cons, dropWS_append, ih,
      dropWS_eq_nil sep hsep]
    simp

/-! ### Lemmas about the dedup loop -/

theorem dedupGo_sublist (seen : List (List Char)) (l : List SearchResult) :
    List.Sublist (dedupGo seen l) l := by
  induction l generalizing seen with
  | nil => simp [dedupGo]
  | cons r rest ih =>
    by_cases h : fingerprint r ∈ seen
    · rw [dedupGo, if_pos h]
      exact (ih seen).cons _
    · rw [dedupGo, if_neg h]
      exact (ih _).cons₂ _

theorem mem_dedupGo_not_seen {seen : List (List Char)} {l : List SearchResult} :
    ∀ r ∈ dedupGo seen l, fingerprint r ∉ seen := by
  induction l generalizing seen with
  | nil => intro r hr; simp [dedupGo] at hr
  | cons a rest ih =>
    intro r hr
    by_cases h : fingerprint a ∈ seen
    · rw [dedupGo, if_pos h] at hr
      exact ih r hr
    · rw [dedupGo, if_neg h] at hr
      rcases List.mem_cons.mp hr with hq | hq
      · rw [hq]; exact h
      · have h2 := ih r hq
        intro hc
        exact h2 (List.mem_cons_of_mem _ hc)

theorem dedupGo_pairwise (seen : List (List Char)) (l : List SearchResult) :
    (dedupGo seen l).Pairwise (fun a b => fingerprint a ≠ fingerprint b) := by
  induction l generalizing seen with
  | nil => simp [dedupGo]
  | cons a rest ih =>
    by_cases h : fingerprint a ∈ seen
    · rw [dedupGo, if_pos h]; exact ih seen
    · rw [dedupGo, if_neg h]
      refine List.Pairwise.cons ?_ (ih _)
      intro b hb hab
      have h2 := mem_dedupGo_not_seen b hb
      rw [← hab] at h2
      exact h2 (List.mem_cons_self _ _)

theorem dedupGo_find? {seen : List (List Char)} {l : List SearchResult} :
    ∀ r ∈ dedupGo seen l,
      l.find? (fun x => fingerprint x = fingerprint r) = some r := by
  induction l generalizing seen with
  | nil => intro r hr; simp [dedupGo] at hr
  | cons a rest ih =>
    intro r hr
    by_cases h : fingerprint a ∈ seen
    · rw [dedupGo, if_pos h] at hr
      have hne : fingerprint a ≠ fingerprint r := by
        intro he
        have h2 := mem_dedupGo_not_seen r hr
        rw [← he] at h2
        exact h2 h
      rw [List.find?_cons_of_neg _ (by simp [hne])]
      exact ih r hr
    · rw [dedupGo, if_neg h] at hr
      rcases List.mem_cons.mp hr with hq | hq
      · rw [← hq]
        rw [List.find?_cons_of_pos _ (by simp)]
      · have hne : fingerprint a ≠ fingerprint r := by
          intro he
          have h2 := mem_dedupGo_not_seen r hq
          rw [← he] at h2
          exact h2 (List.mem_cons_self _ _)
        rw [List.find?_cons_of_neg _ (by simp [hne])]
        exact ih r hq

/-! ### Lemmas about the stable descending sort -/

theorem insertDescBy_perm {α : Type} (key : α → Int) (x : α) (l : List α) :
    List.Perm (insertDescBy key x l) (x :: l) := by
  induction l with
  | nil => rfl
  | cons y ys ih =>
    by_cases h : key y ≤ key x
    · rw [insertDescBy, if_pos h]
    · rw [insertDescBy, if_neg h]
      exact (ih.cons y).trans (List.Perm.swap x y ys)

theorem sortDescBy_perm {α : Type} (key : α → Int) (l : List α) :
    List.Perm (sortDescBy key l) l := by
  induction l with
  | nil => rfl
  | cons x xs ih =>
    exact (insertDescBy_perm key x (sortDescBy key xs)).trans (ih.cons x)

theorem insertDescBy_pairwise {α : Type} (key : α → Int) (x : α) (l : List α)
    (h : l.Pairwise (fun a b => key b ≤ key a)) :
    (insertDescBy key x l).Pairwise (fun a b => key b ≤ key a) := by
  induction l with
  | nil => simp [insertDescBy]
  | cons y ys ih =>
    rcases List.pairwise_cons.mp h with ⟨hy, hys⟩
    by_cases hxy : key y ≤ key x
    · rw [insertDescBy, if_pos hxy]
      refine List.Pairwise.cons ?_ h
      intro b hb
      rcases List.mem_cons.mp hb with hb | hb
      · rw [hb]; exact hxy
      · exact le_trans (hy b hb) hxy
    · rw [insertDescBy, if_neg hxy]
      refine List.Pairwise.cons ?_ (ih hys)
      intro b hb
      have hb2 := (insertDescBy_perm key x ys).mem_iff.mp hb
      rcases List.mem_cons.mp hb2 with hb2 | hb2
      · rw [hb2]
        exact le_of_lt (lt_of_not_le hxy)
      · exact hy b hb2

theorem sortDescBy_pairwise {α : Type} (key : α → Int) (l : List α) :
    (sortDescBy key l).Pairwise (fun a b => key b ≤ key a) := by
  induction l with
  | nil => simp [sortDescBy]
  | cons x xs ih => exact insertDescBy_pairwise key x _ ih

/-- C1: `retrieve_relevant_docs` concatenates the per-query results in query
order, deduplicates by the fingerprint of the first 100 characters of
content keeping the first occurrence (with its score), sorts the survivors
by score descending, and returns at most the top `k`; each distinct
fingerprint appears at most once in the output. -/
theorem retrieve_relevant_docs_spec (search : String → Nat → List SearchResult)
    (queries : List String) (k : Nat) :
    (∀ r ∈ retrieve_relevant_docs search queries k,
        (queries.flatMap (fun q => search q k)).find?
          (fun x => fingerprint x = fingerprint r) = some r) ∧
    (retrieve_relevant_docs search queries k).Pairwise
      (fun a b => fingerprint a ≠ fingerprint b) ∧
    (retrieve_relevant_docs search queries k).Pairwise
      (fun a b => b.score ≤ a.score) ∧
    (retrieve_relevant_docs search queries k).length ≤ k := by
  classical
  set all := queries.flatMap (fun q => search q k) with hall
  have hperm : List.Perm (sortByScoreDesc (dedupGo [] all)) (dedupGo [] all) :=
    sortDescBy_perm _ _
  have hret : retrieve_relevant_docs search queries k
      = (sortByScoreDesc (dedupGo [] all)).take k := rfl
  refine ⟨?_, ?_, ?_, ?_⟩
  · intro r hr
    rw [hret] at hr
    have h1 : r ∈ sortByScoreDesc (dedupGo [] all) :=
      (List.take_sublist _ _).mem hr
    have h2 : r ∈ dedupGo [] all := hperm.mem_iff.mp h1
    exact dedupGo_find? r h2
  · rw [hret]
    refine List.Pairwise.sublist (List.take_sublist _ _) ?_
    refine (dedupGo_pairwise [] all).perm hperm.symm ?_
    intro x y hxy
    exact fun h => hxy h.symm
  · rw [hret]
    exact List.Pairwise.sublist (List.take_sublist _ _)
      (sortDescBy_pairwise (fun r => r.score) (dedupGo [] all))
  · rw [hret]
    exact List.length_take_le _ _

/-- Witness for C1 at a concrete input: the duplicated "beta" document kept
in the output is the first occurrence in query order (score 2, from `q1`),
not the higher-scored later duplicate. -/
theorem retrieve_relevant_docs_spec_witness :
    (["q1", "q2"].flatMap (fun q => searchA q 5)).find?
      (fun x => fingerprint x = fingerprint ⟨"beta".data, [], 2, -1, 2⟩)
      = some ⟨"beta".data, [], 2, -1, 2⟩ :=
  (retrieve_relevant_docs_spec searchA ["q1", "q2"] 5).1
    ⟨"beta".data, [], 2, -1, 2⟩ (by decide)

/-- C6: `rerank_documents` degrades to the identity on its error and empty
paths: an empty candidate list yields `[]` whatever the judge would do, and
any failure of the external judging capability returns the input list
unchanged (same elements, order and length). -/
theorem rerank_documents_degrades :
    (∀ judge : Option (List Int), rerank_documents judge [] = []) ∧
    (∀ documents : List RankedDoc, rerank_documents none documents = documents) := by
  constructor
  · intro judge; rfl
  · intro documents
    cases documents with
    | nil => rfl
    | cons d rest => rfl

/-- C7: the read paths never propagate a store failure: `search` returns
`[]` for every query whenever the underlying similarity search raises, and
`get_collection_stats` degrades to a zero-count report that keeps the
collection name and carries an explanatory `error` (exception path) or
`note` (missing-collection path). -/
theorem store_read_paths_degrade :
    (∀ (e : String) (query : String) (k : Nat),
        VectorStoreManager.search (fun _ _ => .error e) query k = []) ∧
    (∀ (e collection_name embedding_model : String),
        (get_collection_stats (some (.error e)) collection_name embedding_model).total_documents = 0 ∧
        (get_collection_stats (some (.error e)) collection_name embedding_model).collection_name = collection_name ∧
        (get_collection_stats (some (.error e)) collection_name embedding_model).error = some e) ∧
    (∀ (collection_name embedding_model : String),
        (get_collection_stats none collection_name embedding_model).total_documents = 0 ∧
        (get_collection_stats none collection_name embedding_model).collection_name = collection_name ∧
        (get_collection_stats none collection_name embedding_model).note
          = some "Collection not accessible") := by
  refine ⟨fun e q k => rfl, fun e n m => ⟨rfl, rfl, rfl⟩, fun n m => ⟨rfl, rfl, rfl⟩⟩

theorem formatResults_rank (l : List (StoreDoc × Int)) (i : Nat)
    (h : i < (formatResults l).length) :
    ((formatResults l).get ⟨i, h⟩).rank = i + 1 := by
  have hl : i < l.enum.length := by
    simpa [formatResults] using h
  simp [formatResults, List.get_eq_getElem, List.getElem_map, List.getElem_enum]

theorem search_rank (store : String → Nat → Except String (List (StoreDoc × Int)))
    (query : String) (k i : Nat)
    (h : i < (VectorStoreManager.search store query k).length) :
    ((VectorStoreManager.search store query k).get ⟨i, h⟩).rank = i + 1 := by
  revert h
  unfold VectorStoreManager.search
  cases store query k with
  | error e => intro h; simp at h
  | ok results => intro h; exact formatResults_rank results i h

/-- C10: results returned by `retrieve_relevant_docs` pass through from the
per-query searches unchanged, and `VectorStoreManager.search` assigns
`rank = i + 1` to the result at position `i` of a single query's list; the
orchestrator never reassigns ranks, so in the concrete run below the
element at 0-based index 1 (1-based position 2) of the output still carries
`rank = 1` from its own query. -/
theorem retrieve_rank_not_reassigned :
    (∀ (search : String → Nat → List SearchResult) (queries : List String) (k : Nat),
        ∀ r ∈ retrieve_relevant_docs search queries k, ∃ q ∈ queries, r ∈ search q k) ∧
    (∀ (store : String → Nat → Except String (List (StoreDoc × Int)))
        (query : String) (k i : Nat)
        (h : i < (VectorStoreManager.search store query k).length),
        ((VectorStoreManager.search store query k).get ⟨i, h⟩).rank = i + 1) ∧
    (retrieve_relevant_docs searchB ["q1", "q2"] 5).length = 2 ∧
    ((retrieve_relevant_docs searchB ["q1", "q2"] 5).getD 1 defaultSR).rank = 1 := by
  refine ⟨?_, search_rank, by decide, by decide⟩
  intro search queries k r hr
  have h1 : r ∈ sortByScoreDesc (dedupGo [] (queries.flatMap (fun q => search q k))) :=
    (List.take_sublist _ _).mem hr
  have h2 := (sortDescBy_perm (fun r : SearchResult => r.score) _).mem_iff.mp h1
  have h3 := List.Sublist.mem h2 (dedupGo_sublist [] _)
  exact List.mem_flatMap.mp h3

/-- Witness for C10: the higher-scored result of query `q2` is in the
output and indeed originates from one of the queries, and on a concrete
one-element store the single search result carries rank 1. -/
theorem retrieve_rank_not_reassigned_witness :
    (∃ q ∈ ["q1", "q2"], (⟨"high".data, [], 5, -4, 1⟩ : SearchResult) ∈ searchB q 5) ∧
    ((VectorStoreManager.search (fun _ _ => .ok [(⟨"d".data, []⟩, 3)]) "q" 1).get
      ⟨0, by decide⟩).rank = 0 + 1 :=
  ⟨retrieve_rank_not_reassigned.1 searchB ["q1", "q2"] 5
      ⟨"high".data, [], 5, -4, 1⟩ (by decide),
   retrieve_rank_not_reassigned.2.1 (fun _ _ => .ok [(⟨"d".data, []⟩, 3)]) "q" 1 0
     (by decide)⟩

theorem lastNl_lt_length {l : List Char} {j : Nat} (h : lastNl l = some j) :
    j < l.length := by
  induction l generalizing j with
  | nil => simp [lastNl] at h
  | cons c rest ih =>
    rw [lastNl] at h
    cases hr : lastNl rest with
    | some i =>
      rw [hr] at h
      have hj : j = i + 1 := by
        simpa using h.symm
      have := ih hr
      simp [hj, List.length_cons]
      omega
    | none =>
      rw [hr] at h
      by_cases hc : c = '\n'
      · rw [if_pos hc] at h
        have hj : j = 0 := by simpa using h.symm
        simp [hj]
      · rw [if_neg hc] at h
        simp at h

theorem hasMdHeaderGo_replicate (b : Bool) (n : Nat) :
    hasMdHeaderGo b (List.replicate n 'a') = false := by
  induction n generalizing b with
  | zero => rfl
  | succ n ih =>
    rw [List.replicate_succ, hasMdHeaderGo]
    have h1 : mdHeaderHere ('a' :: List.replicate n 'a') = false := by
      simp [mdHeaderHere, List.takeWhile_cons]
    rw [h1, ih]
    simp

theorem hasCodeFence_replicate (n : Nat) :
    hasCodeFence (List.replicate n 'a') = false := by
  induction n with
  | zero => rfl
  | succ n ih =>
    rw [List.replicate_succ, hasCodeFence, ih]
    have h1 : startsWithFence ('a' :: List.replicate n 'a') = false := by
      cases n with
      | zero => rfl
      | succ m =>
        cases m with
        | zero => rfl
        | succ p => simp [List.replicate_succ, startsWithFence, backquote]
    rw [h1]
    rfl

theorem countNlIndentGo_replicate (fuel n : Nat) :
    countNlIndentGo fuel (List.replicate n 'a') = 0 := by
  induction fuel generalizing n with
  | zero => rfl
  | succ fuel ih =>
    cases n with
    | zero => rfl
    | succ m =>
      rw [List.replicate_succ, countNlIndentGo]
      have h1 : ('a' :: List.replicate m 'a').take 5 ≠ nlIndent := by
        intro h
        rw [List.take_succ_cons] at h
        simp [nlIndent] at h
      rw [if_neg h1]
      exact ih m

theorem splitParasGo_replicate (fuel : Nat) :
    ∀ (n : Nat) (cur : List Char), n ≤ fuel →
      splitParasGo fuel cur (List.replicate n 'a')
        = [cur.reverse ++ List.replicate n 'a'] := by
  induction fuel with
  | zero =>
    intro n cur hn
    have : n = 0 := Nat.le_zero.mp hn
    subst this
    simp [splitParasGo]
  | succ fuel ih =>
    intro n cur hn
    cases n with
    | zero => simp [splitParasGo]
    | succ m =>
      rw [List.replicate_succ, splitParasGo]
      have hne : ('a' : Char) ≠ '\n' := by decide
      rw [if_neg hne, ih m ('a' :: cur) (by omega)]
      simp [List.replicate_succ]

theorem sentenceSepCountGo_replicate (fuel n : Nat) :
    sentenceSepCountGo fuel (List.replicate n 'a') = 0 := by
  induction fuel generalizing n with
  | zero => rfl
  | succ fuel ih =>
    cases n with
    | zero => rfl
    | succ m =>
      rw [List.replicate_succ, sentenceSepCountGo]
      have h1 : isTerm 'a' = false := by decide
      rw [h1, if_neg Bool.false_ne_true]
      exact ih m

/-- C4: `auto_select_strategy` applies the decision order of the spec with
first match winning; in particular `"# Title\n\nBody"` selects `markdown`,
a 300-character text of 15 short sentences selects `sentence`, and a
12000-character text with no headers, code markers or paragraph breaks
selects `sliding_window`. -/
theorem auto_select_strategy_spec :
    auto_select_strategy "# Title\n\nBody".data = "markdown" ∧
    (sentText.length = 300 ∧ sentenceSepCount sentText + 1 = 15 ∧
      auto_select_strategy sentText = "sentence") ∧
    ((List.replicate 12000 'a').length = 12000 ∧
      auto_select_strategy (List.replicate 12000 'a') = "sliding_window") := by
  refine ⟨by decide, ⟨by decide, by decide, by decide⟩, by rw [List.length_replicate], ?_⟩
  unfold auto_select_strategy
  rw [hasMdHeader, hasMdHeaderGo_replicate, hasCodeFence_replicate]
  rw [countNlIndent, List.length_replicate, countNlIndentGo_replicate]
  rw [splitParas, List.length_replicate,
    splitParasGo_replicate 12000 12000 [] (le_refl _)]
  rw [sentenceSepCount, List.length_replicate, sentenceSepCountGo_replicate]
  rw [List.reverse_nil, List.nil_append]
  rw [if_neg (by decide : ¬(false = true))]
  rw [if_neg (by decide : ¬((false || decide ((0 : Nat) > 5)) = true))]
  rw [List.length_singleton]
  rw [if_neg (by omega : ¬((1 : Nat) > 3))]
  rw [if_neg (by omega : ¬((0 : Nat) + 1 > 10 ∧ (12000 : Nat) < 5000))]
  rw [if_pos (by omega : (12000 : Nat) > 10000)]

/-- C2 (code bug): the `'recursive'` path of `HybridChunker.chunk` returns
the external splitter's output with no `chunks if chunks else [text]`
guard (every other strategy has one), so when the splitter produces zero
chunks — as langchain's `RecursiveCharacterTextSplitter.split_text` does
on the empty text — `chunk` returns the empty list instead of a single
empty chunk.  By contrast the guarded `'semantic'` path on the same empty
input returns exactly one empty chunk. -/
theorem chunk_recursive_missing_guard (cfg : ChunkConfig)
    (split mdSplit : List Char → List (List Char)) (fuel : Nat) :
    chunk cfg split mdSplit fuel [] "recursive" = split [] ∧
    chunk cfg split mdSplit fuel [] "semantic" = [[]] := by
  constructor
  · rfl
  · rfl

/-- C8 (code bug): with `chunk_size = 100`, `overlap = 95` (non-negative
and smaller than the target size) and `badText`, the loop start sequence
is `0 → 5 → 10 → 10 → ...`: at `start = 10` the window backs off to the
space at index 105 and `start = 105 - 95 = 10` again, with `0 < 10 <
len(text)`, so the `while` loop of `_sliding_window_chunk` re-enters the
same state forever, emitting a chunk each time — the loop does not
terminate even though the claimed exit conditions never hold. -/
theorem sliding_window_nonterminating :
    badCfg.chunk_overlap < badCfg.chunk_size ∧
    badText.length = 120 ∧
    slidingNext badCfg badText 0 = 5 ∧
    slidingNext badCfg badText 5 = 10 ∧
    slidingNext badCfg badText 10 = 10 ∧
    (10 : Nat) < badText.length ∧
    (∀ fuel : Nat, slidingGo badCfg badText (fuel + 1) 10
        = List.replicate 95 'a' :: slidingGo badCfg badText fuel 10) := by
  refine ⟨by decide, by decide, by decide, by decide, by decide, by decide, ?_⟩
  intro fuel
  have hemit : slidingEmit badCfg badText 10 = [List.replicate 95 'a'] := by decide
  have hnext : (slidingNext badCfg badText 10).toNat = 10 := by decide
  simp only [slidingGo]
  rw [if_pos (by decide : (10 : Nat) < badText.length)]
  rw [if_neg (by decide : ¬slidingNext badCfg badText 10 ≤ 0)]
  rw [hemit, hnext]
  rfl

/-- FIPS 180-4 test vector validating the SHA-256 implementation. -/
theorem sha256hexdigest_abc :
    sha256hexdigest "abc".data
      = "ba7816bf8f01cfea414140de5dae2223b00361a396177a9cb410ff61f20015ad".data := by
  decide

/-- C5 counterexample: two distinct (doc_id, content) pairs receive the
same chunk id, because the joined strings `"a:b" + ":" + "c"` and
`"a" + ":" + "b:c"` coincide — changing both inputs did not change the id,
refuting "changing either the document id or the content changes the
resulting id" as a statement about all input pairs. -/
theorem generate_chunk_id_not_injective :
    ("a:b".data, "c".data) ≠ ("a".data, "b:c".data) ∧
    generate_chunk_id "a:b".data "c".data = generate_chunk_id "a".data "b:c".data := by
  constructor
  · decide
  · exact congrArg (fun l => (sha256hexdigest l).take 16)
      (by decide : "a:b".data ++ ':' :: "c".data = "a".data ++ ':' :: "b:c".data)

/-- C5 (amended): `generate_chunk_id` equals the spec's formula (first 16
hex characters of SHA-256 of `"<doc_id>:<content>"`), it is a pure
function (hence deterministic across calls), and the id depends only on
the joined string, so distinct inputs are only guaranteed distinct ids
when their joined strings' truncated digests differ. -/
theorem generate_chunk_id_spec (doc_id content : List Char) :
    generate_chunk_id doc_id content = chunk_id_spec doc_id content ∧
    (∀ doc_id2 content2,
      doc_id ++ ':' :: content = doc_id2 ++ ':' :: content2 →
      generate_chunk_id doc_id content = generate_chunk_id doc_id2 content2) := by
  constructor
  · unfold generate_chunk_id chunk_id_spec
    rw [List.append_assoc, List.singleton_append]
  · intro d2 c2 h
    unfold generate_chunk_id
    rw [h]

/-- Witness for C5 at concrete inputs: the refinement holds at
`("doc1", "hello")` and the joined-string dependence is discharged at the
colliding pair from the counterexample. -/
theorem generate_chunk_id_spec_witness :
    generate_chunk_id "doc1".data "hello".data = chunk_id_spec "doc1".data "hello".data ∧
    generate_chunk_id "a:b".data "c".data = generate_chunk_id "a".data "b:c".data :=
  ⟨(generate_chunk_id_spec "doc1".data "hello".data).1,
   (generate_chunk_id_spec "a:b".data "c".data).2 "a".data "b:c".data (by decide)⟩

/-- C9 counterexample: on a directory with one readable text document the
tool reports success with `documents_ingested = 1` (the raw-document
count), while `add_documents` produces 2 chunk documents from it — the
reported count is not the number of chunk documents. -/
theorem ingest_documents_count_mismatch :
    (ingest_documents true (.ok [rawDoc1]) (fun _ => .ok ()) "docs").success = true ∧
    (ingest_documents true (.ok [rawDoc1]) (fun _ => .ok ()) "docs").documents_ingested
      = some 1 ∧
    (add_documents_chunks twoChunkSplitter [rawDoc1]).length = 2 ∧
    (1 : Nat) ≠ 2 := by
  refine ⟨rfl, rfl, rfl, by decide⟩

/-- C9 (amended): for an existing directory whose ingestor yields at least
one raw document, and a store add that succeeds, `ingest_documents`
returns a success result whose ingested count equals the number of raw
source documents read from the directory (one per readable supported
file/record) — not the number of chunk documents later derived from them. -/
theorem ingest_documents_spec (directory_path : String) (documents : List RawDoc)
    (add_result : List RawDoc → Except String Unit)
    (hne : documents ≠ []) (hadd : add_result documents = .ok ()) :
    (ingest_documents true (.ok documents) add_result directory_path).success = true ∧
    (ingest_documents true (.ok documents) add_result directory_path).documents_ingested
      = some documents.length := by
  cases documents with
  | nil => exact absurd rfl hne
  | cons d rest =>
    constructor
    · simp [ingest_documents, hadd]
    · simp [ingest_documents, hadd]

/-- Witness for C9 at a concrete input: one raw document, count 1. -/
theorem ingest_documents_spec_witness :
    (ingest_documents true (.ok [rawDoc1]) (fun _ => .ok ()) "docs").success = true ∧
    (ingest_documents true (.ok [rawDoc1]) (fun _ => .ok ()) "docs").documents_ingested
      = some 1 :=
  ingest_documents_spec "docs" [rawDoc1] (fun _ => .ok ()) (by decide) rfl

/-! ## C3: non-whitespace content preservation -/

theorem dropWS_cons (c : Char) (l : List Char) :
    dropWS (c :: l) = dropWS [c] ++ dropWS l :=
  dropWS_append [c] l

theorem dropWS_nil : dropWS [] = [] := rfl

theorem dropWS_drop_of_le_takeWhile (n : Nat) :
    ∀ (rest : List Char), n ≤ (rest.takeWhile isPySpace).length →
      dropWS (rest.drop n) = dropWS rest := by
  induction n with
  | zero => intro rest _; rfl
  | succ n ih =>
    intro rest hn
    cases rest with
    | nil => simp at hn
    | cons c rest2 =>
      by_cases hc : isPySpace c
      · have htw : (c :: rest2).takeWhile isPySpace = c :: rest2.takeWhile isPySpace := by
          simp [List.takeWhile_cons, hc]
        rw [htw] at hn
        have hn2 : n ≤ (rest2.takeWhile isPySpace).length := by
          simpa using hn
        have h1 : (c :: rest2).drop (n + 1) = rest2.drop n := rfl
        rw [h1, ih rest2 hn2]
        simp [dropWS, List.filter_cons, hc]
      · have htw : (c :: rest2).takeWhile isPySpace = [] := by
          simp [List.takeWhile_cons, hc]
        rw [htw] at hn
        simp at hn

theorem splitParasGo_dropWS (fuel : Nat) :
    ∀ (cur l : List Char), l.length ≤ fuel →
      dropWS (splitParasGo fuel cur l).flatten
        = dropWS cur.reverse ++ dropWS l := by
  induction fuel with
  | zero =>
    intro cur l hl
    have : l = [] := List.length_eq_zero.mp (Nat.le_zero.mp hl)
    subst this
    simp [splitParasGo, dropWS_nil]
  | succ fuel ih =>
    intro cur l hl
    cases l with
    | nil => simp [splitParasGo, dropWS_nil]
    | cons c rest =>
      by_cases hc : c = '\n'
      · rw [splitParasGo, if_pos hc]
        cases hj : lastNl (rest.takeWhile isPySpace) with
        | some j =>
          have hjlt := lastNl_lt_length hj
          have hlen : (rest.drop (j + 1)).length ≤ fuel := by
            simp only [List.length_cons] at hl
            simp [List.length_drop]
            omega
          simp only [List.flatten_cons, dropWS_append, ih [] _ hlen]
          rw [dropWS_drop_of_le_takeWhile (j + 1) rest hjlt]
          have hcws : dropWS (c :: rest) = dropWS rest := by
            simp [dropWS, List.filter_cons, hc, isPySpace]
          rw [hcws]
          simp [dropWS_nil]
        | none =>
          have hlen : rest.length ≤ fuel := by
            simp only [List.length_cons] at hl
            omega
          rw [ih (c :: cur) rest hlen]
          rw [List.reverse_cons, dropWS_append, dropWS_cons c rest]
          rw [List.append_assoc]
      · rw [splitParasGo, if_neg hc]
        have hlen : rest.length ≤ fuel := by
          simp only [List.length_cons] at hl
          omega
        rw [ih (c :: cur) rest hlen]
        rw [List.reverse_cons, dropWS_append, dropWS_cons c rest]
        rw [List.append_assoc]

theorem splitParas_dropWS (text : List Char) :
    dropWS (splitParas text).flatten = dropWS text := by
  unfold splitParas
  rw [splitParasGo_dropWS text.length [] text (le_refl _)]
  rfl

theorem splitSentencesGo_dropWS (fuel : Nat) :
    ∀ (cur : List Char) (b : Bool) (l : List Char), l.length ≤ fuel →
      dropWS (splitSentencesGo fuel cur b l).flatten
        = dropWS cur.reverse ++ dropWS l := by
  induction fuel with
  | zero =>
    intro cur b l hl
    have : l = [] := List.length_eq_zero.mp (Nat.le_zero.mp hl)
    subst this
    simp [splitSentencesGo, dropWS_nil]
  | succ fuel ih =>
    intro cur b l hl
    cases l with
    | nil => simp [splitSentencesGo, dropWS_nil]
    | cons c rest =>
      by_cases hc : (b && isPySpace c) = true
      · rw [splitSentencesGo, if_pos hc]
        have hcs : isPySpace c := (Bool.and_eq_true _ _).mp hc |>.2
        have hlen : (rest.dropWhile isPySpace).length ≤ fuel := by
          have := (List.dropWhile_sublist (l := rest) isPySpace).length_le
          simp only [List.length_cons] at hl
          omega
        simp only [List.flatten_cons, dropWS_append, ih [] false _ hlen]
        rw [dropWS_dropWhile rest]
        have hcws : dropWS (c :: rest) = dropWS rest := by
          simp [dropWS, List.filter_cons, hcs]
        rw [hcws]
        simp [dropWS_nil]
      · rw [splitSentencesGo, if_neg hc]
        have hlen : rest.length ≤ fuel := by
          simp only [List.length_cons] at hl
          omega
        rw [ih (c :: cur) (isTerm c) rest hlen]
        rw [List.reverse_cons, dropWS_append, dropWS_cons c rest]
        rw [List.append_assoc]

theorem splitSentences_dropWS (text : List Char) :
    dropWS (splitSentences text).flatten = dropWS text := by
  unfold splitSentences
  rw [splitSentencesGo_dropWS text.length [] false text (le_refl _)]
  rfl

theorem nl2_ws : ∀ c ∈ nl2, isPySpace c := by decide

theorem space_ws : ∀ c ∈ [' '], isPySpace c := by decide

theorem flush_dropWS (cur : List (List Char)) :
    dropWS (if cur = [] then ([] : List (List Char)) else [joinSep nl2 cur]).flatten
      = dropWS cur.flatten := by
  by_cases hc : cur = []
  · subst hc
    simp [dropWS_nil]
  · rw [if_neg hc]
    simp [dropWS_joinSep nl2 nl2_ws]

theorem semanticGo_dropWS (cfg : ChunkConfig) (split : List Char → List (List Char))
    (hs : ∀ t, dropWS (split t).flatten = dropWS t) :
    ∀ (paras cur : List (List Char)) (size : Nat),
      dropWS (semanticGo cfg split paras cur size).flatten
        = dropWS cur.flatten ++ dropWS paras.flatten := by
  intro paras
  induction paras with
  | nil =>
    intro cur size
    show dropWS (if cur = [] then ([] : List (List Char)) else [joinSep nl2 cur]).flatten = _
    rw [flush_dropWS]
    simp [dropWS_nil]
  | cons para rest ih =>
    intro cur size
    simp only [semanticGo]
    by_cases h1 : pyStrip para = []
    · rw [if_pos h1, ih cur size]
      rw [List.flatten_cons, dropWS_append, dropWS_of_pyStrip_eq_nil para h1]
      simp
    · rw [if_neg h1]
      by_cases h2 : (pyStrip para).length > cfg.chunk_size
      · rw [if_pos h2]
        rw [List.flatten_append, List.flatten_append, dropWS_append, dropWS_append]
        rw [flush_dropWS, hs (pyStrip para), ih [] 0, dropWS_pyStrip]
        simp [dropWS_append, dropWS_nil, List.append_assoc]
      · rw [if_neg h2]
        by_cases h3 : size + (pyStrip para).length > cfg.chunk_size ∧ cur ≠ []
        · rw [if_pos h3]
          rw [List.flatten_cons, dropWS_append, ih [pyStrip para] (pyStrip para).length]
          rw [dropWS_joinSep nl2 nl2_ws]
          simp [dropWS_append, dropWS_nil, dropWS_pyStrip, List.append_assoc]
        · rw [if_neg h3, ih (cur ++ [pyStrip para]) (size + (pyStrip para).length + 2)]
          rw [List.flatten_append]
          simp [dropWS_append, dropWS_nil, dropWS_pyStrip, List.append_assoc]

theorem paragraphGo_dropWS (cfg : ChunkConfig) :
    ∀ (paras cur : List (List Char)) (size : Nat),
      dropWS (paragraphGo cfg paras cur size).flatten
        = dropWS cur.flatten ++ dropWS paras.flatten := by
  intro paras
  induction paras with
  | nil =>
    intro cur size
    show dropWS (if cur = [] then ([] : List (List Char)) else [joinSep nl2 cur]).flatten = _
    rw [flush_dropWS]
    simp [dropWS_nil]
  | cons para rest ih =>
    intro cur size
    simp only [paragraphGo]
    by_cases h1 : pyStrip para = []
    · rw [if_pos h1, ih cur size]
      rw [List.flatten_cons, dropWS_append, dropWS_of_pyStrip_eq_nil para h1]
      simp
    · rw [if_neg h1]
      by_cases h3 : size + (pyStrip para).length > cfg.chunk_size ∧ cur ≠ []
      · rw [if_pos h3]
        rw [List.flatten_cons, dropWS_append, ih [pyStrip para] (pyStrip para).length]
        rw [dropWS_joinSep nl2 nl2_ws]
        simp [dropWS_append, dropWS_nil, dropWS_pyStrip, List.append_assoc]
      · rw [if_neg h3, ih (cur ++ [pyStrip para]) (size + (pyStrip para).length + 2)]
        rw [List.flatten_append]
        simp [dropWS_append, dropWS_nil, dropWS_pyStrip, List.append_assoc]

theorem sentenceFlush_dropWS (cur : List (List Char)) :
    dropWS (if cur = [] then ([] : List (List Char)) else [joinSep [' '] cur]).flatten
      = dropWS cur.flatten := by
  by_cases hc : cur = []
  · subst hc
    simp [dropWS_nil]
  · rw [if_neg hc]
    simp [dropWS_joinSep [' '] space_ws]

theorem sentenceGo_dropWS (cfg : ChunkConfig) :
    ∀ (sents cur : List (List Char)) (size : Nat),
      dropWS (sentenceGo cfg sents cur size).flatten
        = dropWS cur.flatten ++ dropWS sents.flatten := by
  intro sents
  induction sents with
  | nil =>
    intro cur size
    show dropWS (if cur = [] then ([] : List (List Char)) else [joinSep [' '] cur]).flatten = _
    rw [sentenceFlush_dropWS]
    simp [dropWS_nil]
  | cons s rest ih =>
    intro cur size
    simp only [sentenceGo]
    by_cases h1 : pyStrip s = []
    · rw [if_pos h1, ih cur size]
      rw [List.flatten_cons, dropWS_append, dropWS_of_pyStrip_eq_nil s h1]
      simp
    · rw [if_neg h1]
      by_cases h3 : size + (pyStrip s).length > cfg.chunk_size ∧ cur ≠ []
      · rw [if_pos h3]
        rw [List.flatten_cons, dropWS_append, ih [pyStrip s] (pyStrip s).length]
        rw [dropWS_joinSep [' '] space_ws]
        simp [dropWS_append, dropWS_nil, dropWS_pyStrip, List.append_assoc]
      · rw [if_neg h3, ih (cur ++ [pyStrip s]) (size + (pyStrip s).length + 1)]
        rw [List.flatten_append]
        simp [dropWS_append, dropWS_nil, dropWS_pyStrip, List.append_assoc]

theorem windowEnd_gt (cfg : ChunkConfig) (text : List Char) (start : Nat)
    (hcs : 1 ≤ cfg.chunk_size) : start < windowEnd cfg text start := by
  unfold windowEnd
  by_cases h : start + cfg.chunk_size < text.length
  · rw [if_pos h]
    cases rfindSpace text (start + cfg.chunk_size - cfg.chunk_size / 10)
        (start + cfg.chunk_size) with
    | none =>
      show start < start + cfg.chunk_size
      omega
    | some bp =>
      show start < if bp > start then bp else start + cfg.chunk_size
      by_cases h2 : bp > start
      · rw [if_pos h2]
        exact h2
      · rw [if_neg h2]
        omega
  · rw [if_neg h]
    omega

theorem slidingEmit_dropWS (cfg : ChunkConfig) (text : List Char) (start : Nat) :
    dropWS (slidingEmit cfg text start).flatten
      = dropWS (pySlice text start (windowEnd cfg text start)) := by
  unfold slidingEmit
  by_cases h : pyStrip (pySlice text start (windowEnd cfg text start)) = []
  · rw [if_pos h]
    rw [dropWS_of_pyStrip_eq_nil _ h]
    rfl
  · rw [if_neg h]
    simp [dropWS_pyStrip]

theorem slidingGo_dropWS (cfg : ChunkConfig) (text : List Char)
    (hov : cfg.chunk_overlap = 0) (hcs : 1 ≤ cfg.chunk_size) :
    ∀ (fuel start : Nat), text.length - start ≤ fuel →
      dropWS (slidingGo cfg text fuel start).flatten = dropWS (text.drop start) := by
  intro fuel
  induction fuel with
  | zero =>
    intro start h
    have hge : text.length ≤ start := by omega
    rw [List.drop_eq_nil_of_le hge]
    simp [slidingGo, dropWS_nil]
  | succ fuel ih =>
    intro start h
    by_cases hlt : start < text.length
    · have hgt := windowEnd_gt cfg text start hcs
      have hnext : slidingNext cfg text start = (windowEnd cfg text start : Int) := by
        simp [slidingNext, hov]
      have hpos : ¬ slidingNext cfg text start ≤ 0 := by
        rw [hnext]
        omega
      simp only [slidingGo]
      rw [if_pos hlt, if_neg hpos]
      have htn : (slidingNext cfg text start).toNat = windowEnd cfg text start := by
        rw [hnext]
        simp
      rw [htn]
      have hlen2 : text.length - windowEnd cfg text start ≤ fuel := by omega
      rw [List.flatten_append, dropWS_append, ih (windowEnd cfg text start) hlen2]
      rw [slidingEmit_dropWS, ← dropWS_append]
      congr 1
      unfold pySlice
      rw [List.drop_take]
      have he : start + (windowEnd cfg text start - start) = windowEnd cfg text start := by
        omega
      have h2 : text.drop (windowEnd cfg text start)
          = (text.drop start).drop (windowEnd cfg text start - start) := by
        rw [List.drop_drop, he]
      rw [h2, List.take_append_drop]
    · simp only [slidingGo]
      rw [if_neg hlt]
      have hge : text.length ≤ start := by omega
      rw [List.drop_eq_nil_of_le hge]
      rfl

theorem sliding_chunk_dropWS (cfg : ChunkConfig) (fuel : Nat) (text : List Char)
    (hov : cfg.chunk_overlap = 0) (hcs : 1 ≤ cfg.chunk_size)
    (hfuel : text.length ≤ fuel) :
    dropWS (_sliding_window_chunk cfg fuel text).flatten = dropWS text := by
  unfold _sliding_window_chunk
  by_cases h : slidingGo cfg text fuel 0 = []
  · rw [if_pos h]
    simp
  · rw [if_neg h]
    have hmain := slidingGo_dropWS cfg text hov hcs fuel 0 (by omega)
    simpa using hmain

theorem semantic_chunk_dropWS (cfg : ChunkConfig)
    (split : List Char → List (List Char))
    (hs : ∀ t, dropWS (split t).flatten = dropWS t) (text : List Char) :
    dropWS (_semantic_chunk cfg split text).flatten = dropWS text := by
  unfold _semantic_chunk
  by_cases h : semanticGo cfg split (splitParas text) [] 0 = []
  · rw [if_pos h]
    simp
  · rw [if_neg h]
    rw [semanticGo_dropWS cfg split hs (splitParas text) [] 0]
    simp [splitParas_dropWS, dropWS_nil]

theorem paragraph_chunk_dropWS (cfg : ChunkConfig) (text : List Char) :
    dropWS (_paragraph_chunk cfg text).flatten = dropWS text := by
  unfold _paragraph_chunk
  by_cases h : paragraphGo cfg (splitParas text) [] 0 = []
  · rw [if_pos h]
    simp
  · rw [if_neg h]
    rw [paragraphGo_dropWS cfg (splitParas text) [] 0]
    simp [splitParas_dropWS, dropWS_nil]

theorem sentence_chunk_dropWS (cfg : ChunkConfig) (text : List Char) :
    dropWS (_sentence_chunk cfg text).flatten = dropWS text := by
  unfold _sentence_chunk
  by_cases h : sentenceGo cfg (splitSentences text) [] 0 = []
  · rw [if_pos h]
    simp
  · rw [if_neg h]
    rw [sentenceGo_dropWS cfg (splitSentences text) [] 0]
    simp [splitSentences_dropWS, dropWS_nil]

theorem markdown_chunk_dropWS (cfg : ChunkConfig)
    (split mdSplit : List Char → List (List Char))
    (hs : ∀ t, dropWS (split t).flatten = dropWS t)
    (hm : ∀ t, dropWS (mdSplit t).flatten = dropWS t) (text : List Char) :
    dropWS (_markdown_chunk cfg split mdSplit text).flatten = dropWS text := by
  have key : ∀ pieces : List (List Char),
      dropWS (pieces.flatMap
        (fun t => if t.length > cfg.chunk_size then split t else [t])).flatten
        = dropWS pieces.flatten := by
    intro pieces
    induction pieces with
    | nil => rfl
    | cons t rest ih =>
      rw [List.flatMap_cons, List.flatten_append, dropWS_append, ih]
      rw [List.flatten_cons, dropWS_append]
      congr 1
      by_cases h : t.length > cfg.chunk_size
      · rw [if_pos h]
        exact hs t
      · rw [if_neg h]
        simp
  unfold _markdown_chunk
  by_cases h : (mdSplit text).flatMap
      (fun t => if t.length > cfg.chunk_size then split t else [t]) = []
  · rw [if_pos h]
    simp
  · rw [if_neg h]
    rw [key (mdSplit text), hm text]

theorem dispatchStrategy_dropWS (cfg : ChunkConfig)
    (split mdSplit : List Char → List (List Char))
    (hs : ∀ t, dropWS (split t).flatten = dropWS t)
    (hm : ∀ t, dropWS (mdSplit t).flatten = dropWS t)
    (hov : cfg.chunk_overlap = 0) (hcs : 1 ≤ cfg.chunk_size)
    (fuel : Nat) (text : List Char) (hfuel : text.length ≤ fuel) (s : String) :
    dropWS (dispatchStrategy cfg split mdSplit fuel text s).flatten = dropWS text := by
  unfold dispatchStrategy
  by_cases h1 : s = "recursive"
  · rw [if_pos h1]
    exact hs text
  · rw [if_neg h1]
    by_cases h2 : s = "semantic"
    · rw [if_pos h2]
      exact semantic_chunk_dropWS cfg split hs text
    · rw [if_neg h2]
      by_cases h3 : s = "markdown"
      · rw [if_pos h3]
        exact markdown_chunk_dropWS cfg split mdSplit hs hm text
      · rw [if_neg h3]
        by_cases h4 : s = "paragraph"
        · rw [if_pos h4]
          exact paragraph_chunk_dropWS cfg text
        · rw [if_neg h4]
          by_cases h5 : s = "sentence"
          · rw [if_pos h5]
            exact sentence_chunk_dropWS cfg text
          · rw [if_neg h5]
            exact sliding_chunk_dropWS cfg fuel text hov hcs hfuel

/-- C3 (amended): for every strategy, concatenating the produced chunks in
ordinal order reproduces the input text up to whitespace — every
non-whitespace character is preserved, in order; whitespace may be
normalized at paragraph/sentence separators and stripped at chunk edges.
For the externally delegated splitters (`recursive`, `markdown`, and the
oversized-paragraph branch of `semantic`) this holds provided the external
splitter itself preserves non-whitespace content (`hs`, `hm`); for
`sliding_window` it is stated with overlap 0 (the claim ignores the
configured overlap regions), a positive chunk size, and fuel covering the
text (the loop itself may diverge, see C8). -/
theorem chunk_preserves_content (cfg : ChunkConfig)
    (split mdSplit : List Char → List (List Char))
    (hs : ∀ t, dropWS (split t).flatten = dropWS t)
    (hm : ∀ t, dropWS (mdSplit t).flatten = dropWS t)
    (hov : cfg.chunk_overlap = 0) (hcs : 1 ≤ cfg.chunk_size)
    (fuel : Nat) (text : List Char) (hfuel : text.length ≤ fuel)
    (strategy : String) :
    dropWS (chunk cfg split mdSplit fuel text strategy).flatten = dropWS text := by
  unfold chunk
  exact dispatchStrategy_dropWS cfg split mdSplit hs hm hov hcs fuel text hfuel _

/-- Witness for C3 at a concrete input: sliding-window chunking of
`"ab cd. ef"` with chunk size 5 and overlap 0 preserves the non-whitespace
content (hypotheses discharged with the identity splitter `fun t => [t]`). -/
theorem chunk_preserves_content_witness :
    dropWS (chunk ⟨5, 0⟩ (fun t => [t]) (fun t => [t]) 9 "ab cd. ef".data
      "sliding_window").flatten = dropWS "ab cd. ef".data :=
  chunk_preserves_content ⟨5, 0⟩ (fun t => [t]) (fun t => [t])
    (fun t => by simp) (fun t => by simp) rfl (by decide) 9 "ab cd. ef".data
    (by decide) "sliding_window"

/-- C3 counterexample: sliding-window chunking of `" a"` (chunk size 5,
overlap 0) strips the leading space from the single window, so the
concatenation of the produced chunks is `"a"`, which does not reproduce
the input text `" a"` — whitespace at chunk edges is silently dropped, so
exact reconstruction fails as stated. -/
theorem chunk_concat_not_exact :
    chunk ⟨5, 0⟩ (fun t => [t]) (fun t => [t]) 2 " a".data "sliding_window"
      = ["a".data] ∧
    (chunk ⟨5, 0⟩ (fun t => [t]) (fun t => [t]) 2 " a".data
      "sliding_window").flatten ≠ " a".data := by
  constructor
  · decide
  · decide
